import Mathlib

/-!
Shallow embedding of the x402-stacks relay server (the polling-and-fan-out
relay in the repository's websocket server file).

The Task State Cache (a JS `Map` from task id to last observed status) is
embedded as an association list with JS `Map` semantics: `get` finds the
first entry, `set` updates an existing key in place and otherwise appends.
The three polling loops, the HTTP control-surface handlers and the
browser-state query machinery are embedded as pure functions; remote
fetches are passed in as function arguments (`none` models a failed fetch,
mirroring the `!res.ok`/catch paths that skip a cycle's item), and each
poller additionally returns the list of fetch attempts it made so that
frame claims ("no fetch happened") are statable.
-/

namespace X402Relay

/-- A fetched task snapshot: `{id, status, title, assignedAgent?, agentId?,
posterAddress?}` as consumed by the server.  Optional fields model JS
`undefined`. -/
structure Task where
  id : String
  status : String
  title : String := ""
  assignedAgent : Option String := none
  agentId : Option String := none
  posterAddress : Option String := none
deriving DecidableEq

/-- The `taskStatusCache` JS `Map`, as an association list in insertion
order (taskId -> lastKnownStatus). -/
abbrev Cache := List (String × String)

/-- JS `Map.get`: first entry with the key, or `none`. -/
def cacheGet : Cache → String → Option String
  | [], _ => none
  | p :: rest, k => if p.1 = k then some p.2 else cacheGet rest k

/-- JS `Map.has`. -/
def cacheHas (c : Cache) (k : String) : Bool :=
  (cacheGet c k).isSome

/-- Replace the value stored under an existing key, keeping position. -/
def cacheSetExisting : Cache → String → String → Cache
  | [], _, _ => []
  | p :: rest, k, v => (if p.1 = k then (k, v) else p) :: cacheSetExisting rest k v

/-- JS `Map.set`: update in place when the key exists, append otherwise. -/
def cacheSet (c : Cache) (k v : String) : Cache :=
  if cacheHas c k then cacheSetExisting c k v else c ++ [(k, v)]

/-- The keys of the cache, in insertion order. -/
def cacheKeys (c : Cache) : List String :=
  c.map Prod.fst

/-- The terminal status set from `pollWatchedTasks`. -/
def terminalStatuses : List String :=
  ["completed", "cancelled", "rejected", "expired"]

/-- True when a status is terminal. -/
def isTerminal (s : String) : Bool :=
  terminalStatuses.contains s

/-- The ordered status list scanned by `pollAllAgentTasks`. -/
def allStatuses : List String :=
  ["bidding", "assigned", "in-progress", "submitted", "completed"]

/-- JS `Set.has` applied to a possibly-`undefined` field: `has(undefined)`
is false because both identity sets only ever hold strings. -/
def memOpt (l : List String) : Option String → Bool
  | some v => l.contains v
  | none => false

/-- `isOurTask(task)` from the server: membership tests of the task's
`assignedAgent`, `agentId` and `posterAddress` fields against the resolved
agent server ids (`ids`) and the local wallet-address set (`wallets`). -/
def isOurTask (ids wallets : List String) (t : Task) : Bool :=
  memOpt ids t.assignedAgent || memOpt ids t.agentId ||
    memOpt wallets t.posterAddress || memOpt wallets t.assignedAgent

/-- Classification of one observation against the cache, as in the spec's
`recordObservation`: `FIRST_SEEN` = inserted without broadcasting,
`UNCHANGED` = no-op, `CHANGED` = updated and broadcastable. -/
inductive ObsResult
  | FIRST_SEEN
  | UNCHANGED
  | CHANGED
deriving DecidableEq

/-- The change-detection kernel of `pollAllAgentTasks`:
`prev = taskStatusCache.get(id); if (prev === status) continue;
if (prev) updates.push(t); taskStatusCache.set(id, status)`.
Note the JS truthiness test `if (prev)`: a cached empty-string status is
falsy, so it takes the no-broadcast (first-seen) branch even though the
key is present; the cache is still updated. -/
def recordObservation (c : Cache) (taskId status : String) : ObsResult × Cache :=
  match cacheGet c taskId with
  | none => (.FIRST_SEEN, cacheSet c taskId status)
  | some prev =>
    if prev = status then (.UNCHANGED, c)
    else if prev = "" then (.FIRST_SEEN, cacheSet c taskId status)
    else (.CHANGED, cacheSet c taskId status)

/-- Websocket broadcast messages the server can emit. -/
inductive WsMsg
  | newTasks (tasks : List Task)
  | taskUpdates (tasks : List Task)
  | paymentTx (taskId txId : String)
  | pollWatched
  | reload
  | stateRequest
deriving DecidableEq

/-- Inner loop of `pollAllAgentTasks` over one fetched task list: filter by
`isOurTask`, apply the change-detection kernel, accumulate the tasks whose
status changed (in push order). -/
def obsLoop (ids wallets : List String) : List Task → Cache → Cache × List Task
  | [], c => (c, [])
  | t :: rest, c =>
    if isOurTask ids wallets t then
      let ob := recordObservation c t.id t.status
      let r := obsLoop ids wallets rest ob.2
      (r.1, if ob.1 = ObsResult.CHANGED then t :: r.2 else r.2)
    else obsLoop ids wallets rest c

/-- Middle loop of `pollAllAgentTasks` over the status list.  `f` is the
remote fetch for one status query (`none` = `!res.ok` or a thrown error,
which skips that status).  Returns the cache, the accumulated updates and
the log of statuses for which a fetch was attempted. -/
def statusLoop (ids wallets : List String) (f : String → Option (List Task)) :
    List String → Cache → Cache × List Task × List String
  | [], c => (c, [], [])
  | s :: rest, c =>
    match f s with
    | none =>
      let r := statusLoop ids wallets f rest c
      (r.1, r.2.1, s :: r.2.2)
    | some tasks =>
      let ob := obsLoop ids wallets tasks c
      let r := statusLoop ids wallets f rest ob.1
      (r.1, ob.2 ++ r.2.1, s :: r.2.2)

/-- `pollAllAgentTasks`: returns the new cache, the broadcast of the cycle
(`none` when `updates` stayed empty) and the fetch-attempt log.  The two
guard clauses return before any fetch. -/
def pollAllAgentTasks (ids wallets : List String) (c : Cache)
    (f : String → Option (List Task)) (nclients : Nat) :
    Cache × Option WsMsg × List String :=
  if ids.isEmpty then (c, none, [])
  else if nclients = 0 then (c, none, [])
  else
    let r := statusLoop ids wallets f allStatuses c
    (r.1, if r.2.1.isEmpty then none else some (.taskUpdates r.2.1), r.2.2)

/-- The status an entry `(id, s)` holds after one `pollWatchedTasks` pass
over it with fetch `f`. -/
def wPost (f : String → Option Task) (id s : String) : String :=
  if isTerminal s then s
  else
    match f id with
    | none => s
    | some t => t.status

/-- Body of `pollWatchedTasks`: iterate the cache entries, skip terminal
statuses, re-fetch each remaining task by id (`f`, with `none` modelling a
failed fetch), update and accumulate on a status difference.  Returns the
cache, the updates and the log of task ids for which a fetch was
attempted. -/
def watchLoop (f : String → Option Task) :
    List (String × String) → Cache → Cache × List Task × List String
  | [], c => (c, [], [])
  | e :: rest, c =>
    if isTerminal e.2 then watchLoop f rest c
    else
      match f e.1 with
      | none =>
        let r := watchLoop f rest c
        (r.1, r.2.1, e.1 :: r.2.2)
      | some task =>
        if task.status = e.2 then
          let r := watchLoop f rest c
          (r.1, r.2.1, e.1 :: r.2.2)
        else
          let r := watchLoop f rest (cacheSet c e.1 task.status)
          (r.1, task :: r.2.1, e.1 :: r.2.2)

/-- `pollWatchedTasks`: guard clauses, then one pass of `watchLoop` over
the current cache entries. -/
def pollWatchedTasks (c : Cache) (f : String → Option Task) (nclients : Nat) :
    Cache × Option WsMsg × List String :=
  if c.isEmpty then (c, none, [])
  else if nclients = 0 then (c, none, [])
  else
    let r := watchLoop f c c
    (r.1, if r.2.1.isEmpty then none else some (.taskUpdates r.2.1), r.2.2)

/-- JS `Set.add` on the seen-new-task-id set (insertion order kept). -/
def seenAdd (s : List String) (id : String) : List String :=
  if s.contains id then s else s ++ [id]

/-- `tasks.forEach(t => seenNewIds.add(t.id))`. -/
def seenAddAll (s : List String) : List Task → List String
  | [] => s
  | t :: rest => seenAddAll (seenAdd s t.id) rest

/-- Merge the per-URL fetch results of `pollNewTasks` in order; a failed
fetch (`none`) contributes nothing. -/
def mergeFetched : List (Option (List Task)) → List Task
  | [] => []
  | r :: rest => r.getD [] ++ mergeFetched rest

/-- `pollNewTasks`: on the first fetch, seed the seen set and return; on
later cycles, filter out already-seen ids, re-seed every fetched id and
broadcast the batch only when it is non-empty.  Returns the new
`firstFetch` flag, the new seen set and the broadcast of the cycle. -/
def pollNewTasks (firstFetch : Bool) (seen : List String)
    (rs : List (Option (List Task))) : Bool × List String × Option WsMsg :=
  let tasks := mergeFetched rs
  if firstFetch then
    (false, seenAddAll seen tasks, none)
  else
    let newTasks := tasks.filter (fun t => !seen.contains t.id)
    (false, seenAddAll seen tasks,
      if newTasks.isEmpty then none else some (.newTasks newTasks))

/-- HTTP response bodies of the control-surface endpoints used here. -/
inductive ApiResp
  | err (msg : String)
  | stored
  | tracking (n : Nat)
  | converted (address : String)
deriving DecidableEq

/-- The mutable server stores touched by the control surface. -/
structure ServerState where
  taskStatusCache : Cache
  seenNewIds : List String
  firstFetch : Bool
  paymentTxIds : List (String × String)
deriving DecidableEq

/-- JS falsiness of an optional string field (`undefined` and `''`). -/
def jsFalsy : Option String → Bool
  | none => true
  | some s => s = ""

/-- `req.body.status || 'unknown'`. -/
def defaultWatchStatus : Option String → String
  | none => "unknown"
  | some s => if s = "" then "unknown" else s

/-- `POST /api/payment-tx`: validate both fields, store the tx id, reply
`{stored:true}` and broadcast a `payment_tx` message.  Returns the new
state, the HTTP status code with body, and the broadcasts. -/
def handlePaymentTx (st : ServerState) (taskId txId : Option String) :
    ServerState × (Nat × ApiResp) × List WsMsg :=
  if jsFalsy taskId || jsFalsy txId then
    (st, (400, .err "taskId and txId required"), [])
  else
    let tid := taskId.getD ""
    let tx := txId.getD ""
    ({ st with paymentTxIds := cacheSet st.paymentTxIds tid tx },
      (200, .stored), [.paymentTx tid tx])

/-- `POST /api/watch-task`: validate `taskId`, insert it with
`status || 'unknown'` only when absent from the cache, reply with the
cache size. -/
def handleWatchTask (st : ServerState) (taskId status : Option String) :
    ServerState × (Nat × ApiResp) × List WsMsg :=
  if jsFalsy taskId then
    (st, (400, .err "taskId required"), [])
  else
    let tid := taskId.getD ""
    if cacheHas st.taskStatusCache tid then
      (st, (200, .tracking st.taskStatusCache.length), [])
    else
      let cache := cacheSet st.taskStatusCache tid (defaultWatchStatus status)
      ({ st with taskStatusCache := cache }, (200, .tracking cache.length), [])

/-- `GET /api/convert-address`: validate both query params, then decode and
re-encode through the address codec.  `dec` models `c32addressDecode`
(`none` = throw) and `enc` models `c32address`. -/
def handleConvertAddress (dec : String → Option (Nat × String))
    (enc : Nat → String → String) (st : ServerState)
    (address network : Option String) :
    ServerState × (Nat × ApiResp) × List WsMsg :=
  if jsFalsy address || jsFalsy network then
    (st, (400, .err "address and network required"), [])
  else
    match dec (address.getD "") with
    | none => (st, (400, .err "decode failed"), [])
    | some pr =>
      let version := if network = some "mainnet" then 22 else 26
      (st, (200, .converted (enc version pr.2)), [])

/-- What a `/api/browser-state` caller can be answered with. -/
inductive ApiAnswer
  | payload (d : String)
  | errTimeout
  | errNoClients
deriving DecidableEq

/-- The browser-state query machinery: `_stateResolve` tagged with the
query it would resolve, the HTTP responses already sent (tagged by query),
and a count of `state_request` messages sent to clients. -/
structure QueryState where
  pending : Option Nat
  responses : List (Nat × ApiAnswer)
  sentRequests : Nat
deriving DecidableEq

/-- Events touching the query machinery: an incoming
`GET /api/browser-state` (with the number of open client connections at
that moment), the firing of the 5-second timeout scheduled by one query,
and an inbound `state_response` client message. -/
inductive QEvent
  | query (qid : Nat) (nclients : Nat)
  | timerFire (qid : Nat)
  | clientMsg (d : String)
deriving DecidableEq

/-- One step of the query machinery:
a query with zero clients answers `{error:'no clients'}` at once; otherwise
it sends a `state_request` and overwrites `_stateResolve`;
a timer firing answers its own query with `{error:'timeout'}` when any
resolver is still pending (and clears it);
a `state_response` resolves whichever query is pending. -/
def qStep (st : QueryState) : QEvent → QueryState
  | .query qid n =>
    if n = 0 then { st with responses := st.responses ++ [(qid, .errNoClients)] }
    else { st with pending := some qid, sentRequests := st.sentRequests + 1 }
  | .timerFire qid =>
    match st.pending with
    | some _ => { st with pending := none, responses := st.responses ++ [(qid, .errTimeout)] }
    | none => st
  | .clientMsg d =>
    match st.pending with
    | some q => { st with pending := none, responses := st.responses ++ [(q, .payload d)] }
    | none => st

/-- Run a list of events through the query machinery. -/
def qRun (st : QueryState) (evs : List QEvent) : QueryState :=
  evs.foldl qStep st

/-- Whether an event is a `GET /api/browser-state` request with this id. -/
def mentionsQuery (q : Nat) : QEvent → Bool
  | .query q' _ => q' == q
  | _ => false

/-- Consistency of a status-filtered fetch over a status list: any two
occurrences of one task id across the fetched lists carry the same
status (a snapshot never shows one task in two states at once). -/
def consistentOn (f : String → Option (List Task)) (sts : List String) : Prop :=
  ∀ s s', s ∈ sts → s' ∈ sts → ∀ l l', f s = some l → f s' = some l' →
    ∀ t t', t ∈ l → t' ∈ l' → t.id = t'.id → t.status = t'.status

/-- Any two tasks of one fetched list with the same id have the same
status. -/
def pairwiseConsistent (tasks : List Task) : Prop :=
  ∀ t t', t ∈ tasks → t' ∈ tasks → t.id = t'.id → t.status = t'.status

/-- Concrete snapshots for the scenario checks. -/
def taskA : Task := { id := "A", status := "open" }

def taskB : Task := { id := "B", status := "open" }

def taskC : Task := { id := "C", status := "open" }

def taskD : Task := { id := "D", status := "open" }

def taskW : Task := { id := "x", status := "open" }

/-- A task owned only through its `agentId` field. -/
def taskByAgentId : Task :=
  { id := "T", status := "open", assignedAgent := some "x",
    agentId := some "A", posterAddress := some "y" }

/-- An empty server state. -/
def emptyServerState : ServerState :=
  { taskStatusCache := [], seenNewIds := [], firstFetch := true, paymentTxIds := [] }

/-- A server state whose cache holds an empty-string task id. -/
def emptyIdServerState : ServerState :=
  { taskStatusCache := [("", "open")], seenNewIds := [], firstFetch := true,
    paymentTxIds := [] }

/-- The query machinery at process start. -/
def qInit : QueryState :=
  { pending := none, responses := [], sentRequests := 0 }

/-! ### Cache lemmas -/

theorem cacheGet_append_single_ne (c : Cache) (k v id : String) (h : k ≠ id) :
    cacheGet (c ++ [(k, v)]) id = cacheGet c id := by
  induction c with
  | nil => simp [cacheGet, h]
  | cons p rest ih =>
    by_cases hp : p.1 = id <;> simp [cacheGet, hp, ih]

theorem cacheGet_append_single_self (c : Cache) (k v : String)
    (h : cacheGet c k = none) : cacheGet (c ++ [(k, v)]) k = some v := by
  induction c with
  | nil => simp [cacheGet]
  | cons p rest ih =>
    by_cases hp : p.1 = k
    · simp [cacheGet, hp] at h
    · simp [cacheGet, hp] at h ⊢
      exact ih h

theorem cacheGet_setExisting_self (c : Cache) (k v : String)
    (h : cacheHas c k = true) : cacheGet (cacheSetExisting c k v) k = some v := by
  induction c with
  | nil => simp [cacheHas, cacheGet] at h
  | cons p rest ih =>
    by_cases hp : p.1 = k
    · simp [cacheSetExisting, hp, cacheGet]
    · simp [cacheHas, cacheGet, hp] at h
      simp [cacheSetExisting, hp, cacheGet, ih h]

theorem cacheGet_setExisting_ne (c : Cache) (k v id : String) (h : k ≠ id) :
    cacheGet (cacheSetExisting c k v) id = cacheGet c id := by
  induction c with
  | nil => simp [cacheSetExisting]
  | cons p rest ih =>
    by_cases hp : p.1 = k
    · have hpid : p.1 ≠ id := hp ▸ h
      simp [cacheSetExisting, hp, cacheGet, h, hpid, ih]
    · simp [cacheSetExisting, hp, cacheGet, ih]

theorem cacheGet_set_self (c : Cache) (k v : String) :
    cacheGet (cacheSet c k v) k = some v := by
  unfold cacheSet
  by_cases h : cacheHas c k
  · simp [h, cacheGet_setExisting_self c k v h]
  · have hn : cacheGet c k = none := by
      unfold cacheHas at h
      exact Option.not_isSome_iff_eq_none.mp (by simpa using h)
    simp [h, cacheGet_append_single_self c k v hn]

theorem cacheGet_set_ne (c : Cache) (k v id : String) (h : k ≠ id) :
    cacheGet (cacheSet c k v) id = cacheGet c id := by
  unfold cacheSet
  by_cases hh : cacheHas c k
  · simp [hh, cacheGet_setExisting_ne c k v id h]
  · simp [hh, cacheGet_append_single_ne c k v id h]

theorem cacheKeys_setExisting (c : Cache) (k v : String) :
    cacheKeys (cacheSetExisting c k v) = cacheKeys c := by
  induction c with
  | nil => simp [cacheSetExisting]
  | cons p rest ih =>
    by_cases hp : p.1 = k
    · simp [cacheSetExisting, hp, cacheKeys] at ih ⊢
      exact ih
    · simp [cacheSetExisting, hp, cacheKeys] at ih ⊢
      exact ih

theorem cacheHas_of_mem {c : Cache} {k v : String} (h : (k, v) ∈ c) :
    cacheHas c k = true := by
  induction c with
  | nil => simp at h
  | cons p rest ih =>
    rcases List.mem_cons.mp h with h' | h'
    · simp [cacheHas, cacheGet, ← h']
    · by_cases hp : p.1 = k
      · simp [cacheHas, cacheGet, hp]
      · simpa [cacheHas, cacheGet, hp] using ih h'

theorem cacheHas_iff_mem_keys (c : Cache) (k : String) :
    cacheHas c k = true ↔ k ∈ cacheKeys c := by
  induction c with
  | nil => simp [cacheHas, cacheGet, cacheKeys]
  | cons p rest ih =>
    by_cases hp : p.1 = k
    · simp [cacheHas, cacheGet, hp, cacheKeys]
    · simp [cacheHas, cacheGet, hp, cacheKeys] at ih ⊢
      rw [← ih]
      constructor
      · exact Or.inr
      · rintro (h | h)
        · exact absurd h.symm hp
        · exact h

theorem cacheKeys_set_of_has (c : Cache) (k v : String)
    (h : cacheHas c k = true) : cacheKeys (cacheSet c k v) = cacheKeys c := by
  simp [cacheSet, h, cacheKeys_setExisting c k v]

theorem cacheGet_of_mem_nodup {c : Cache} {k v : String}
    (hnd : (cacheKeys c).Nodup) (h : (k, v) ∈ c) : cacheGet c k = some v := by
  induction c with
  | nil => simp at h
  | cons p rest ih =>
    have hnd' := List.nodup_cons.mp hnd
    rcases List.mem_cons.mp h with h' | h'
    · simp [cacheGet, ← h']
    · have hk : k ∈ cacheKeys rest := List.mem_map.mpr ⟨(k, v), h', rfl⟩
      have hp : p.1 ≠ k := by
        intro he
        rw [he] at hnd'
        exact hnd'.1 hk
      simp [cacheGet, hp]
      exact ih hnd'.2 h'

theorem mem_cacheSet_self_of_has {c : Cache} {k : String} (v : String)
    (h : cacheHas c k = true) : (k, v) ∈ cacheSet c k v := by
  unfold cacheSet
  simp [h]
  induction c with
  | nil => simp [cacheHas, cacheGet] at h
  | cons p rest ih =>
    by_cases hp : p.1 = k
    · simp [cacheSetExisting, hp]
    · simp [cacheHas, cacheGet, hp] at h
      simp [cacheSetExisting, hp]
      exact Or.inr (ih h)

theorem cacheHas_cacheSet (c : Cache) (k k' v : String)
    (h : cacheHas c k = true) : cacheHas (cacheSet c k' v) k = true := by
  by_cases he : k' = k
  · subst he
    simp [cacheHas, cacheGet_set_self]
  · unfold cacheHas
    rw [cacheGet_set_ne c k' v k he]
    exact h

theorem cacheNodup_set (c : Cache) (k v : String)
    (hnd : (cacheKeys c).Nodup) : (cacheKeys (cacheSet c k v)).Nodup := by
  by_cases h : cacheHas c k
  · rw [cacheKeys_set_of_has c k v h]
    exact hnd
  · have : cacheKeys (cacheSet c k v) = cacheKeys c ++ [k] := by
      simp [cacheSet, h, cacheKeys]
    rw [this]
    have hk : k ∉ cacheKeys c := fun hm =>
      h ((cacheHas_iff_mem_keys c k).mpr hm)
    simp [List.nodup_append, hnd]
    exact hk

theorem exists_mem_of_mem_cacheKeys {c : Cache} {k : String}
    (h : k ∈ cacheKeys c) : ∃ v, (k, v) ∈ c := by
  rcases List.mem_map.mp h with ⟨p, hp, he⟩
  refine ⟨p.2, ?_⟩
  rw [← he]
  simpa using hp

/-! ### recordObservation lemmas -/

theorem recordObservation_get_self (c : Cache) (tid s : String) :
    cacheGet (recordObservation c tid s).2 tid = some s := by
  unfold recordObservation
  cases h : cacheGet c tid with
  | none => simp [cacheGet_set_self]
  | some prev =>
    by_cases h1 : prev = s
    · simp [h1, h]
    · by_cases h2 : prev = ""
      · subst h2
        simp [h1, cacheGet_set_self]
      · simp [h1, h2, cacheGet_set_self]

theorem recordObservation_get_ne (c : Cache) (tid s id : String)
    (h : tid ≠ id) : cacheGet (recordObservation c tid s).2 id = cacheGet c id := by
  unfold recordObservation
  cases hg : cacheGet c tid with
  | none => simp [cacheGet_set_ne c tid s id h]
  | some prev =>
    by_cases h1 : prev = s
    · simp [h1]
    · by_cases h2 : prev = ""
      · subst h2
        simp [h1, cacheGet_set_ne c tid s id h]
      · simp [h1, h2, cacheGet_set_ne c tid s id h]

theorem recordObservation_unchanged (c : Cache) (tid s : String)
    (h : cacheGet c tid = some s) :
    recordObservation c tid s = (ObsResult.UNCHANGED, c) := by
  simp [recordObservation, h]

/-! ### C1 -/

/-- C1 counterexample: a task cached with the empty-string status (reachable,
since `pollAllAgentTasks` stores whatever `t.status` the remote API returns
and empty-string statuses pass `prev === t.status` as a plain string compare)
is present with a different status, yet a subsequent observation is not
reported as CHANGED: the JS truthiness test `if (prev)` sends it down the
no-broadcast insert branch. -/
theorem C1_counterexample_empty_cached_status :
    cacheGet [("t", "")] "t" = some "" ∧ ("" : String) ≠ "done" ∧
      (recordObservation [("t", "")] "t" "done").1 ≠ ObsResult.CHANGED ∧
      (recordObservation [("t", "")] "t" "done").1 = ObsResult.FIRST_SEEN := by
  refine ⟨rfl, by decide, ?_, ?_⟩ <;> simp [recordObservation, cacheGet, cacheSet]

/-- C1 (amended): the first observation of a task inserts it with no
broadcastable change (FIRST_SEEN); an observation matching the cached status
is a no-op (UNCHANGED); an observation differing from the cached status
always updates the cache to the new status, and is reported as a
broadcastable change (CHANGED) when the previously cached status is a
nonempty string, while a cached empty-string status is treated like a first
sighting (cache updated, nothing broadcastable). -/
theorem C1_recordObservation_state_machine (c : Cache) (id s : String) :
    (cacheGet c id = none →
        recordObservation c id s = (ObsResult.FIRST_SEEN, cacheSet c id s)) ∧
      (cacheGet c id = some s →
        recordObservation c id s = (ObsResult.UNCHANGED, c)) ∧
      (∀ prev, cacheGet c id = some prev → prev ≠ s → prev ≠ "" →
        recordObservation c id s = (ObsResult.CHANGED, cacheSet c id s)) ∧
      (cacheGet c id = some "" → s ≠ "" →
        recordObservation c id s = (ObsResult.FIRST_SEEN, cacheSet c id s)) ∧
      cacheGet (recordObservation c id s).2 id = some s := by
  refine ⟨?_, ?_, ?_, ?_, recordObservation_get_self c id s⟩
  · intro h
    simp [recordObservation, h]
  · intro h
    simp [recordObservation, h]
  · intro prev h h1 h2
    simp [recordObservation, h, h1, h2]
  · intro h hs
    simp [recordObservation, h, Ne.symm hs]

/-- C1 witness: the three transitions of the amended statement at concrete
inputs. -/
theorem C1_recordObservation_witness :
    recordObservation [] "t" "bidding" =
        (ObsResult.FIRST_SEEN, cacheSet [] "t" "bidding") ∧
      recordObservation [("t", "bidding")] "t" "bidding" =
        (ObsResult.UNCHANGED, [("t", "bidding")]) ∧
      recordObservation [("t", "bidding")] "t" "assigned" =
        (ObsResult.CHANGED, cacheSet [("t", "bidding")] "t" "assigned") :=
  ⟨(C1_recordObservation_state_machine [] "t" "bidding").1 rfl,
    (C1_recordObservation_state_machine [("t", "bidding")] "t" "bidding").2.1 rfl,
    (C1_recordObservation_state_machine [("t", "bidding")] "t" "assigned").2.2.1
      "bidding" rfl (by decide) (by decide)⟩

/-! ### C3 -/

/-- C3 counterexample: a snapshot whose `agentId` field (a third field the
claim does not mention) is a resolved agent id, while neither its
assigned-agent field nor its poster field matches any resolved agent id or
wallet address, is still classified as ours — so the claimed
"iff over assigned-agent and poster" is false. -/
theorem C3_counterexample_agentId_field :
    isOurTask ["A"] [] taskByAgentId = true ∧
      ¬ ((∃ a, taskByAgentId.assignedAgent = some a ∧
            (a ∈ (["A"] : List String) ∨ a ∈ ([] : List String))) ∨
          (∃ p, taskByAgentId.posterAddress = some p ∧
            (p ∈ (["A"] : List String) ∨ p ∈ ([] : List String)))) := by
  constructor
  · rfl
  · rintro (⟨a, ha, hm⟩ | ⟨p, hp, hm⟩)
    · rw [show taskByAgentId.assignedAgent = some "x" from rfl] at ha
      cases ha
      simp at hm
    · rw [show taskByAgentId.posterAddress = some "y" from rfl] at hp
      cases hp
      simp at hm

/-- C3 (amended): `isOurTask` is true iff the snapshot's assigned-agent
field matches a resolved remote agent identifier or a local wallet address,
or its agent-id field matches a resolved remote agent identifier, or its
poster field matches a local wallet address; it is a pure function of the
snapshot and the two identity sets. -/
theorem C3_isOurTask_characterization (ids wallets : List String) (t : Task) :
    isOurTask ids wallets t = true ↔
      ((∃ a, t.assignedAgent = some a ∧ (a ∈ ids ∨ a ∈ wallets)) ∨
        (∃ a, t.agentId = some a ∧ a ∈ ids) ∨
        (∃ p, t.posterAddress = some p ∧ p ∈ wallets)) := by
  unfold isOurTask
  cases haa : t.assignedAgent with
  | none =>
    cases hai : t.agentId with
    | none =>
      cases hpa : t.posterAddress with
      | none => simp [memOpt]
      | some p => simp [memOpt, List.elem_iff]
    | some a =>
      cases hpa : t.posterAddress with
      | none => simp [memOpt, List.elem_iff]
      | some p => simp [memOpt, List.elem_iff, or_comm]
  | some a =>
    cases hai : t.agentId with
    | none =>
      cases hpa : t.posterAddress with
      | none => simp [memOpt, List.elem_iff, or_comm]
      | some p =>
        simp [memOpt, List.elem_iff]
        tauto
    | some b =>
      cases hpa : t.posterAddress with
      | none =>
        simp [memOpt, List.elem_iff]
        tauto
      | some p =>
        simp [memOpt, List.elem_iff]
        tauto

/-! ### C7 -/

/-- C7: a `GET /api/browser-state` request arriving while zero client
connections are open is answered at once with the no-clients error, sends
no `state_request`, registers no pending resolver, and does not depend on
any later timer event. -/
theorem C7_browser_state_no_clients (st : QueryState) (q : Nat) :
    (qStep st (QEvent.query q 0)).responses =
        st.responses ++ [(q, ApiAnswer.errNoClients)] ∧
      (qStep st (QEvent.query q 0)).pending = st.pending ∧
      (qStep st (QEvent.query q 0)).sentRequests = st.sentRequests := by
  refine ⟨?_, ?_, ?_⟩ <;> simp [qStep]

/-! ### C8 -/

/-- C8: each control-surface handler rejects a request missing a required
field with HTTP 400 and an error body, leaves the whole server state
untouched and broadcasts nothing. -/
theorem C8_validation_failures_are_pure (st : ServerState)
    (dec : String → Option (Nat × String)) (enc : Nat → String → String)
    (tid txid addr net status : Option String) :
    (tid = none ∨ txid = none →
        handlePaymentTx st tid txid =
          (st, (400, ApiResp.err "taskId and txId required"), [])) ∧
      handleWatchTask st none status =
        (st, (400, ApiResp.err "taskId required"), []) ∧
      (addr = none ∨ net = none →
        handleConvertAddress dec enc st addr net =
          (st, (400, ApiResp.err "address and network required"), [])) := by
  refine ⟨?_, ?_, ?_⟩
  · rintro (h | h) <;> subst h <;> simp [handlePaymentTx, jsFalsy]
  · simp [handleWatchTask, jsFalsy]
  · rintro (h | h) <;> subst h <;> simp [handleConvertAddress, jsFalsy]

/-- C8 witness: the three rejections at concrete inputs. -/
theorem C8_validation_witness :
    handlePaymentTx emptyServerState none (some "0xabc") =
        (emptyServerState, (400, ApiResp.err "taskId and txId required"), []) ∧
      handleWatchTask emptyServerState none (some "open") =
        (emptyServerState, (400, ApiResp.err "taskId required"), []) ∧
      handleConvertAddress (fun _ => none) (fun _ _ => "") emptyServerState
          (some "ST2ABC") none =
        (emptyServerState, (400, ApiResp.err "address and network required"), []) :=
  ⟨(C8_validation_failures_are_pure emptyServerState (fun _ => none)
      (fun _ _ => "") none (some "0xabc") (some "ST2ABC") none
      (some "open")).1 (Or.inl rfl),
    (C8_validation_failures_are_pure emptyServerState (fun _ => none)
      (fun _ _ => "") none (some "0xabc") (some "ST2ABC") none
      (some "open")).2.1,
    (C8_validation_failures_are_pure emptyServerState (fun _ => none)
      (fun _ _ => "") none (some "0xabc") (some "ST2ABC") none
      (some "open")).2.2 (Or.inr rfl)⟩

/-! ### C9 -/

/-- C9: with zero connected clients both change-detection pollers return
immediately — no fetch is attempted (empty fetch log), the cache is
untouched and nothing is broadcast; the all-agent poller does the same
whenever the resolved agent identifier set is empty. -/
theorem C9_pollers_suspended_without_clients (ids wallets : List String)
    (c : Cache) (f : String → Option (List Task)) (g : String → Option Task) :
    pollAllAgentTasks ids wallets c f 0 = (c, none, []) ∧
      pollWatchedTasks c g 0 = (c, none, []) ∧
      (∀ n, pollAllAgentTasks [] wallets c f n = (c, none, [])) := by
  refine ⟨?_, ?_, ?_⟩
  · by_cases h : ids.isEmpty <;> simp [pollAllAgentTasks, h]
  · by_cases h : c.isEmpty <;> simp [pollWatchedTasks, h]
  · intro n
    simp [pollAllAgentTasks]

/-! ### C10 -/

/-- C10 counterexample: (a) a watch request supplying the empty string as
its optional status stores `'unknown'`, not the given status — JS
`req.body.status || 'unknown'` treats `''` as absent; (b) a task id equal
to the empty string that is already present in the cache is answered with
HTTP 400, not with `{tracking: size}` — `if (!taskId)` rejects it before
the cache lookup. -/
theorem C10_counterexample_falsy_fields :
    (cacheGet (handleWatchTask emptyServerState (some "t")
          (some "")).1.taskStatusCache "t" = some "unknown" ∧
        ("unknown" : String) ≠ "") ∧
      (cacheHas emptyIdServerState.taskStatusCache "" = true ∧
        (handleWatchTask emptyIdServerState (some "") none).2.1 =
          (400, ApiResp.err "taskId required")) := by
  refine ⟨⟨?_, by decide⟩, ?_, ?_⟩
  · simp [handleWatchTask, emptyServerState, jsFalsy, defaultWatchStatus,
      cacheHas, cacheGet, cacheSet]
  · simp [emptyIdServerState, cacheHas, cacheGet]
  · simp [handleWatchTask, jsFalsy]

/-- C10 (amended): `POST /api/watch-task` with a nonempty task identifier
is idempotent on an already-tracked task — the cache (hence its size and
the cached status) is unchanged, the optional status field is ignored, and
the reply is `{tracking: size}`; an absent nonempty identifier is inserted
at the end of the cache with the given status when that status is a
nonempty string and with `'unknown'` when the field is absent or empty; a
request whose task identifier is absent or empty is rejected with 400
before touching the cache. -/
theorem C10_watch_task_idempotent (st : ServerState) (tid : String)
    (status : Option String) (htid : tid ≠ "") :
    (∀ s0, cacheGet st.taskStatusCache tid = some s0 →
        handleWatchTask st (some tid) status =
          (st, (200, ApiResp.tracking st.taskStatusCache.length), [])) ∧
      (cacheGet st.taskStatusCache tid = none →
        handleWatchTask st (some tid) status =
          ({ st with taskStatusCache :=
              st.taskStatusCache ++ [(tid, defaultWatchStatus status)] },
            (200, ApiResp.tracking (st.taskStatusCache.length + 1)), [])) ∧
      (defaultWatchStatus none = "unknown" ∧
        defaultWatchStatus (some "") = "unknown" ∧
        ∀ s, s ≠ "" → defaultWatchStatus (some s) = s) := by
  refine ⟨?_, ?_, rfl, rfl, ?_⟩
  · intro s0 h
    have hh : cacheHas st.taskStatusCache tid = true := by
      simp [cacheHas, h]
    simp [handleWatchTask, jsFalsy, htid, hh]
  · intro h
    have hh : cacheHas st.taskStatusCache tid = false := by
      simp [cacheHas, h]
    simp [handleWatchTask, jsFalsy, htid, hh, cacheSet]
  · intro s hs
    simp [defaultWatchStatus, hs]

/-- C10 witness: idempotence on a tracked task and insertion of an
untracked one, at concrete inputs. -/
theorem C10_watch_task_witness :
    handleWatchTask { emptyServerState with taskStatusCache := [("t", "open")] }
        (some "t") (some "assigned") =
      ({ emptyServerState with taskStatusCache := [("t", "open")] },
        (200, ApiResp.tracking 1), []) ∧
      handleWatchTask emptyServerState (some "u") none =
        ({ emptyServerState with taskStatusCache := [("u", "unknown")] },
          (200, ApiResp.tracking 1), []) :=
  ⟨(C10_watch_task_idempotent
        { emptyServerState with taskStatusCache := [("t", "open")] }
        "t" (some "assigned") (by decide)).1 "open" rfl,
    (C10_watch_task_idempotent emptyServerState "u" none (by decide)).2.1 rfl⟩

/-! ### C4 -/

theorem mem_seenAdd (s : List String) (i id : String) :
    id ∈ seenAdd s i ↔ id ∈ s ∨ id = i := by
  unfold seenAdd
  by_cases hi : i ∈ s
  · rw [if_pos (by simpa using hi)]
    constructor
    · exact Or.inl
    · rintro (h | h)
      · exact h
      · exact h ▸ hi
  · rw [if_neg (by simpa using hi)]
    simp

theorem mem_seenAddAll (s : List String) (ts : List Task) (id : String) :
    id ∈ seenAddAll s ts ↔ id ∈ s ∨ ∃ t ∈ ts, t.id = id := by
  induction ts generalizing s with
  | nil => simp [seenAddAll]
  | cons t rest ih =>
    simp only [seenAddAll]
    rw [ih, mem_seenAdd]
    constructor
    · rintro ((h | h) | ⟨t', ht', he⟩)
      · exact Or.inl h
      · exact Or.inr ⟨t, List.mem_cons_self t rest, h.symm⟩
      · exact Or.inr ⟨t', List.mem_cons_of_mem t ht', he⟩
    · rintro (h | ⟨t', ht', he⟩)
      · exact Or.inl (Or.inl h)
      · rcases List.mem_cons.mp ht' with h' | h'
        · exact Or.inl (Or.inr (h' ▸ he.symm))
        · exact Or.inr ⟨t', h', he⟩

/-- C4: on the first cycle of the new-open-task poller every fetched open
task id is inserted into the seen set and nothing is broadcast; on a later
cycle the broadcast batch contains exactly the fetched tasks whose ids are
not yet in the set, and every fetched id (seen or not) is in the new set;
the spec's scenario — seed with A, B, C then additionally see D — seeds
the set, stays silent, and then broadcasts exactly `[D]`. -/
theorem C4_new_task_poller (seen : List String) (rs : List (Option (List Task))) :
    ((pollNewTasks true seen rs).2.2 = none ∧
        (pollNewTasks true seen rs).1 = false ∧
        (∀ id, id ∈ (pollNewTasks true seen rs).2.1 ↔
          id ∈ seen ∨ ∃ t ∈ mergeFetched rs, t.id = id)) ∧
      ((∀ t : Task,
          (∃ l, (pollNewTasks false seen rs).2.2 = some (WsMsg.newTasks l) ∧ t ∈ l)
            ↔ (t ∈ mergeFetched rs ∧ t.id ∉ seen)) ∧
        (∀ id, id ∈ (pollNewTasks false seen rs).2.1 ↔
          id ∈ seen ∨ ∃ t ∈ mergeFetched rs, t.id = id)) ∧
      (pollNewTasks true [] [some [taskA, taskB, taskC]] =
          (false, ["A", "B", "C"], none) ∧
        pollNewTasks false ["A", "B", "C"] [some [taskA, taskB, taskC, taskD]] =
          (false, ["A", "B", "C", "D"], some (WsMsg.newTasks [taskD]))) := by
  refine ⟨⟨rfl, rfl, ?_⟩, ⟨?_, ?_⟩, ?_, ?_⟩
  · intro id
    simpa [pollNewTasks] using mem_seenAddAll seen (mergeFetched rs) id
  · intro t
    simp only [pollNewTasks]
    by_cases hemp :
        ((mergeFetched rs).filter (fun t => !seen.contains t.id)).isEmpty
    · simp only [hemp, if_pos]
      constructor
      · rintro ⟨l, hl, _⟩
        cases hl
      · rintro ⟨hmem, hnot⟩
        have : t ∈ (mergeFetched rs).filter (fun t => !seen.contains t.id) := by
          refine List.mem_filter.mpr ⟨hmem, ?_⟩
          simp [hnot]
        rw [List.isEmpty_iff] at hemp
        rw [hemp] at this
        cases this
    · simp only [hemp, if_neg, Bool.not_eq_true]
      constructor
      · rintro ⟨l, hl, hm⟩
        rw [Option.some_inj] at hl
        have hl' := WsMsg.newTasks.inj hl
        rw [← hl'] at hm
        have := List.mem_filter.mp hm
        refine ⟨this.1, ?_⟩
        have hb := this.2
        simp at hb
        exact hb
      · rintro ⟨hmem, hnot⟩
        refine ⟨_, rfl, ?_⟩
        refine List.mem_filter.mpr ⟨hmem, ?_⟩
        simp [hnot]
  · intro id
    simpa [pollNewTasks] using mem_seenAddAll seen (mergeFetched rs) id
  · rfl
  · rfl

/-! ### watchLoop lemmas -/

theorem watchLoop_cons_terminal (f : String → Option Task)
    (e : String × String) (rest : List (String × String)) (c : Cache)
    (h : isTerminal e.2 = true) :
    watchLoop f (e :: rest) c = watchLoop f rest c := by
  simp [watchLoop, h]

theorem watchLoop_cons_none (f : String → Option Task)
    (e : String × String) (rest : List (String × String)) (c : Cache)
    (h1 : isTerminal e.2 = false) (h2 : f e.1 = none) :
    watchLoop f (e :: rest) c =
      ((watchLoop f rest c).1, (watchLoop f rest c).2.1,
        e.1 :: (watchLoop f rest c).2.2) := by
  simp [watchLoop, h1, h2]

theorem watchLoop_cons_same (f : String → Option Task)
    (e : String × String) (rest : List (String × String)) (c : Cache)
    (task : Task) (h1 : isTerminal e.2 = false) (h2 : f e.1 = some task)
    (h3 : task.status = e.2) :
    watchLoop f (e :: rest) c =
      ((watchLoop f rest c).1, (watchLoop f rest c).2.1,
        e.1 :: (watchLoop f rest c).2.2) := by
  simp [watchLoop, h1, h2, h3]

theorem watchLoop_cons_diff (f : String → Option Task)
    (e : String × String) (rest : List (String × String)) (c : Cache)
    (task : Task) (h1 : isTerminal e.2 = false) (h2 : f e.1 = some task)
    (h3 : task.status ≠ e.2) :
    watchLoop f (e :: rest) c =
      ((watchLoop f rest (cacheSet c e.1 task.status)).1,
        task :: (watchLoop f rest (cacheSet c e.1 task.status)).2.1,
        e.1 :: (watchLoop f rest (cacheSet c e.1 task.status)).2.2) := by
  simp [watchLoop, h1, h2, h3]

theorem watchLoop_get_not_mem (f : String → Option Task)
    (es : List (String × String)) (c : Cache) (id : String)
    (h : id ∉ cacheKeys es) :
    cacheGet (watchLoop f es c).1 id = cacheGet c id := by
  induction es generalizing c with
  | nil => simp [watchLoop]
  | cons e rest ih =>
    have hid : e.1 ≠ id := by
      intro he
      exact h (by simp [cacheKeys, he])
    have hrest : id ∉ cacheKeys rest := by
      intro hm
      exact h (by simp [cacheKeys] at hm ⊢; exact Or.inr hm)
    by_cases ht : isTerminal e.2
    · rw [watchLoop_cons_terminal f e rest c ht]
      exact ih c hrest
    · rw [Bool.not_eq_true] at ht
      cases hf : f e.1 with
      | none =>
        rw [watchLoop_cons_none f e rest c ht hf]
        exact ih c hrest
      | some task =>
        by_cases hs : task.status = e.2
        · rw [watchLoop_cons_same f e rest c task ht hf hs]
          exact ih c hrest
        · rw [watchLoop_cons_diff f e rest c task ht hf hs]
          rw [ih _ hrest]
          exact cacheGet_set_ne c e.1 task.status id hid

theorem watchLoop_log_subset (f : String → Option Task)
    (es : List (String × String)) (c : Cache) :
    ∀ i ∈ (watchLoop f es c).2.2, i ∈ cacheKeys es := by
  induction es generalizing c with
  | nil => simp [watchLoop]
  | cons e rest ih =>
    intro i hi
    by_cases ht : isTerminal e.2
    · rw [watchLoop_cons_terminal f e rest c ht] at hi
      simp [cacheKeys]
      exact Or.inr (by simpa [cacheKeys] using ih c i hi)
    · rw [Bool.not_eq_true] at ht
      cases hf : f e.1 with
      | none =>
        rw [watchLoop_cons_none f e rest c ht hf] at hi
        rcases List.mem_cons.mp hi with h | h
        · simp [cacheKeys, h]
        · simp [cacheKeys]
          exact Or.inr (by simpa [cacheKeys] using ih c i h)
      | some task =>
        by_cases hs : task.status = e.2
        · rw [watchLoop_cons_same f e rest c task ht hf hs] at hi
          rcases List.mem_cons.mp hi with h | h
          · simp [cacheKeys, h]
          · simp [cacheKeys]
            exact Or.inr (by simpa [cacheKeys] using ih c i h)
        · rw [watchLoop_cons_diff f e rest c task ht hf hs] at hi
          rcases List.mem_cons.mp hi with h | h
          · simp [cacheKeys, h]
          · simp [cacheKeys]
            exact Or.inr (by simpa [cacheKeys] using ih _ i h)

theorem watchLoop_terminal_skipped (f : String → Option Task)
    (es : List (String × String)) (c : Cache) (id s : String)
    (hnd : (cacheKeys es).Nodup) (hmem : (id, s) ∈ es)
    (ht : isTerminal s = true) :
    id ∉ (watchLoop f es c).2.2 ∧
      cacheGet (watchLoop f es c).1 id = cacheGet c id := by
  induction es generalizing c with
  | nil => simp at hmem
  | cons e rest ih =>
    have hnd0 := List.nodup_cons.mp hnd
    rcases List.mem_cons.mp hmem with he | he
    · subst he
      have hidr : id ∉ cacheKeys rest := by
        simpa [cacheKeys] using hnd0.1
      rw [watchLoop_cons_terminal f (id, s) rest c ht]
      constructor
      · intro hlog
        exact hidr (watchLoop_log_subset f rest c id hlog)
      · exact watchLoop_get_not_mem f rest c id hidr
    · have hid : e.1 ≠ id := by
        intro heq
        have : id ∈ cacheKeys rest := List.mem_map.mpr ⟨(id, s), he, rfl⟩
        exact hnd0.1 (heq ▸ this)
      by_cases hte : isTerminal e.2
      · rw [watchLoop_cons_terminal f e rest c hte]
        exact ih c hnd0.2 he
      · rw [Bool.not_eq_true] at hte
        cases hf : f e.1 with
        | none =>
          have hr := ih c hnd0.2 he
          rw [watchLoop_cons_none f e rest c hte hf]
          refine ⟨?_, hr.2⟩
          intro hc
          rcases List.mem_cons.mp hc with h | h
          · exact hid h.symm
          · exact hr.1 h
        | some task =>
          by_cases hs : task.status = e.2
          · have hr := ih c hnd0.2 he
            rw [watchLoop_cons_same f e rest c task hte hf hs]
            refine ⟨?_, hr.2⟩
            intro hc
            rcases List.mem_cons.mp hc with h | h
            · exact hid h.symm
            · exact hr.1 h
          · have hr := ih (cacheSet c e.1 task.status) hnd0.2 he
            rw [watchLoop_cons_diff f e rest c task hte hf hs]
            refine ⟨?_, ?_⟩
            · intro hc
              rcases List.mem_cons.mp hc with h | h
              · exact hid h.symm
              · exact hr.1 h
            · rw [hr.2]
              exact cacheGet_set_ne c e.1 task.status id hid

theorem watchLoop_nonterminal_fetched (f : String → Option Task)
    (es : List (String × String)) (c : Cache) (id s : String)
    (hmem : (id, s) ∈ es) (ht : isTerminal s = false) :
    id ∈ (watchLoop f es c).2.2 := by
  induction es generalizing c with
  | nil => simp at hmem
  | cons e rest ih =>
    rcases List.mem_cons.mp hmem with he | he
    · subst he
      cases hf : f id with
      | none =>
        rw [watchLoop_cons_none f (id, s) rest c ht hf]
        exact List.mem_cons_self _ _
      | some task =>
        by_cases hs : task.status = s
        · rw [watchLoop_cons_same f (id, s) rest c task ht hf hs]
          exact List.mem_cons_self _ _
        · rw [watchLoop_cons_diff f (id, s) rest c task ht hf hs]
          exact List.mem_cons_self _ _
    · by_cases hte : isTerminal e.2
      · rw [watchLoop_cons_terminal f e rest c hte]
        exact ih c he
      · rw [Bool.not_eq_true] at hte
        cases hf : f e.1 with
        | none =>
          rw [watchLoop_cons_none f e rest c hte hf]
          exact List.mem_cons_of_mem _ (ih c he)
        | some task =>
          by_cases hs : task.status = e.2
          · rw [watchLoop_cons_same f e rest c task hte hf hs]
            exact List.mem_cons_of_mem _ (ih c he)
          · rw [watchLoop_cons_diff f e rest c task hte hf hs]
            exact List.mem_cons_of_mem _ (ih _ he)

theorem watchLoop_updates_from_fetch (f : String → Option Task)
    (es : List (String × String)) (c : Cache) :
    ∀ t ∈ (watchLoop f es c).2.1,
      ∃ i, i ∈ (watchLoop f es c).2.2 ∧ f i = some t := by
  induction es generalizing c with
  | nil => simp [watchLoop]
  | cons e rest ih =>
    intro t htm
    by_cases hte : isTerminal e.2
    · rw [watchLoop_cons_terminal f e rest c hte] at htm ⊢
      exact ih c t htm
    · rw [Bool.not_eq_true] at hte
      cases hf : f e.1 with
      | none =>
        rw [watchLoop_cons_none f e rest c hte hf] at htm ⊢
        rcases ih c t htm with ⟨i, hi, hfi⟩
        exact ⟨i, List.mem_cons_of_mem _ hi, hfi⟩
      | some task =>
        by_cases hs : task.status = e.2
        · rw [watchLoop_cons_same f e rest c task hte hf hs] at htm ⊢
          rcases ih c t htm with ⟨i, hi, hfi⟩
          exact ⟨i, List.mem_cons_of_mem _ hi, hfi⟩
        · rw [watchLoop_cons_diff f e rest c task hte hf hs] at htm ⊢
          rcases List.mem_cons.mp htm with h | h
          · exact ⟨e.1, List.mem_cons_self _ _, h ▸ hf⟩
          · rcases ih _ t h with ⟨i, hi, hfi⟩
            exact ⟨i, List.mem_cons_of_mem _ hi, hfi⟩

theorem watchLoop_get_of_mem (f : String → Option Task)
    (es : List (String × String)) (c : Cache)
    (hnd : (cacheKeys es).Nodup) (hc : ∀ e ∈ es, cacheGet c e.1 = some e.2)
    (id s : String) (hmem : (id, s) ∈ es) :
    cacheGet (watchLoop f es c).1 id = some (wPost f id s) := by
  induction es generalizing c with
  | nil => simp at hmem
  | cons e rest ih =>
    have hnd0 := List.nodup_cons.mp hnd
    rcases List.mem_cons.mp hmem with he | he
    · subst he
      have hidr : id ∉ cacheKeys rest := by
        simpa [cacheKeys] using hnd0.1
      have hgc : cacheGet c id = some s := hc (id, s) (List.mem_cons_self _ _)
      by_cases ht : isTerminal s
      · rw [watchLoop_cons_terminal f (id, s) rest c ht,
          watchLoop_get_not_mem f rest c id hidr, hgc, wPost, if_pos ht]
      · rw [Bool.not_eq_true] at ht
        cases hf : f id with
        | none =>
          rw [watchLoop_cons_none f (id, s) rest c ht hf,
            watchLoop_get_not_mem f rest c id hidr, hgc]
          simp [wPost, ht, hf]
        | some task =>
          by_cases hs : task.status = s
          · rw [watchLoop_cons_same f (id, s) rest c task ht hf hs,
              watchLoop_get_not_mem f rest c id hidr, hgc]
            simp [wPost, ht, hf, hs]
          · rw [watchLoop_cons_diff f (id, s) rest c task ht hf hs,
              watchLoop_get_not_mem f rest _ id hidr,
              cacheGet_set_self c id task.status]
            simp [wPost, ht, hf]
    · have hid : e.1 ≠ id := by
        intro heq
        have : id ∈ cacheKeys rest := List.mem_map.mpr ⟨(id, s), he, rfl⟩
        exact hnd0.1 (heq ▸ this)
      have hcrest : ∀ e' ∈ rest, cacheGet c e'.1 = some e'.2 :=
        fun e' he' => hc e' (List.mem_cons_of_mem _ he')
      by_cases hte : isTerminal e.2
      · rw [watchLoop_cons_terminal f e rest c hte]
        exact ih c hnd0.2 hcrest he
      · rw [Bool.not_eq_true] at hte
        cases hf : f e.1 with
        | none =>
          rw [watchLoop_cons_none f e rest c hte hf]
          exact ih c hnd0.2 hcrest he
        | some task =>
          by_cases hs : task.status = e.2
          · rw [watchLoop_cons_same f e rest c task hte hf hs]
            exact ih c hnd0.2 hcrest he
          · rw [watchLoop_cons_diff f e rest c task hte hf hs]
            refine ih (cacheSet c e.1 task.status) hnd0.2 ?_ he
            intro e' he'
            have hne : e.1 ≠ e'.1 := by
              intro heq
              have : e'.1 ∈ cacheKeys rest := List.mem_map.mpr ⟨e', he', rfl⟩
              exact hnd0.1 (heq ▸ this)
            rw [cacheGet_set_ne c e.1 task.status e'.1 hne]
            exact hcrest e' he'

theorem watchLoop_keys (f : String → Option Task)
    (es : List (String × String)) (c : Cache)
    (hc : ∀ e ∈ es, cacheHas c e.1 = true) :
    cacheKeys (watchLoop f es c).1 = cacheKeys c := by
  induction es generalizing c with
  | nil => simp [watchLoop]
  | cons e rest ih =>
    have hcrest : ∀ e' ∈ rest, cacheHas c e'.1 = true :=
      fun e' he' => hc e' (List.mem_cons_of_mem _ he')
    by_cases hte : isTerminal e.2
    · rw [watchLoop_cons_terminal f e rest c hte]
      exact ih c hcrest
    · rw [Bool.not_eq_true] at hte
      cases hf : f e.1 with
      | none =>
        rw [watchLoop_cons_none f e rest c hte hf]
        exact ih c hcrest
      | some task =>
        by_cases hs : task.status = e.2
        · rw [watchLoop_cons_same f e rest c task hte hf hs]
          exact ih c hcrest
        · rw [watchLoop_cons_diff f e rest c task hte hf hs]
          have hhead : cacheHas c e.1 = true := hc e (List.mem_cons_self _ _)
          rw [ih (cacheSet c e.1 task.status)
              (fun e' he' => cacheHas_cacheSet c e'.1 e.1 task.status (hcrest e' he'))]
          exact cacheKeys_set_of_has c e.1 task.status hhead

theorem watchLoop_nochange (f : String → Option Task)
    (es : List (String × String)) (c : Cache)
    (h : ∀ e ∈ es, isTerminal e.2 = false → ∀ t, f e.1 = some t → t.status = e.2) :
    (watchLoop f es c).1 = c ∧ (watchLoop f es c).2.1 = [] := by
  induction es generalizing c with
  | nil => simp [watchLoop]
  | cons e rest ih =>
    have hrest : ∀ e' ∈ rest, isTerminal e'.2 = false →
        ∀ t, f e'.1 = some t → t.status = e'.2 :=
      fun e' he' => h e' (List.mem_cons_of_mem _ he')
    by_cases hte : isTerminal e.2
    · rw [watchLoop_cons_terminal f e rest c hte]
      exact ih c hrest
    · rw [Bool.not_eq_true] at hte
      cases hf : f e.1 with
      | none =>
        rw [watchLoop_cons_none f e rest c hte hf]
        exact ih c hrest
      | some task =>
        have hs : task.status = e.2 :=
          h e (List.mem_cons_self _ _) hte task hf
        rw [watchLoop_cons_same f e rest c task hte hf hs]
        exact ih c hrest

/-! ### C5 -/

/-- C5: an entry of the Task State Cache whose current cached status is
terminal is skipped by the watched-task poller — its id is never fetched,
its cache entry is untouched, and every task in the cycle's broadcast comes
from a fetch of some other id; an entry with a non-terminal status is
fetched; and after overwriting an entry's status with a non-terminal value
(even one that had been terminal) the poller fetches that id again —
the terminal check reads the current cached status at iteration time. -/
theorem C5_terminal_entries_skipped (c : Cache) (g : String → Option Task)
    (n : Nat) (id s : String) (hn : n ≠ 0) (hnd : (cacheKeys c).Nodup)
    (hmem : (id, s) ∈ c) :
    (isTerminal s = true →
        id ∉ (pollWatchedTasks c g n).2.2 ∧
          cacheGet (pollWatchedTasks c g n).1 id = some s ∧
          (∀ l, (pollWatchedTasks c g n).2.1 = some (WsMsg.taskUpdates l) →
            ∀ t ∈ l, ∃ i, i ∈ (pollWatchedTasks c g n).2.2 ∧ i ≠ id ∧
              g i = some t)) ∧
      (isTerminal s = false → id ∈ (pollWatchedTasks c g n).2.2) ∧
      (∀ s', isTerminal s' = false →
        id ∈ (pollWatchedTasks (cacheSet c id s') g n).2.2) := by
  have hne : c.isEmpty = false := by
    cases c with
    | nil => simp at hmem
    | cons e rest => rfl
  have hpoll : pollWatchedTasks c g n =
      ((watchLoop g c c).1,
        if (watchLoop g c c).2.1.isEmpty then none
          else some (WsMsg.taskUpdates (watchLoop g c c).2.1),
        (watchLoop g c c).2.2) := by
    simp [pollWatchedTasks, hne, hn]
  refine ⟨?_, ?_, ?_⟩
  · intro ht
    have hskip := watchLoop_terminal_skipped g c c id s hnd hmem ht
    refine ⟨?_, ?_, ?_⟩
    · rw [hpoll]
      exact hskip.1
    · rw [hpoll]
      simpa [hskip.2] using cacheGet_of_mem_nodup hnd hmem
    · intro l hl t htl
      rw [hpoll] at hl
      by_cases hup : (watchLoop g c c).2.1.isEmpty
      · simp [hup] at hl
      · simp [hup] at hl
        rcases watchLoop_updates_from_fetch g c c t (hl ▸ htl) with ⟨i, hi, hfi⟩
        refine ⟨i, ?_, ?_, hfi⟩
        · rw [hpoll]
          exact hi
        · intro heq
          exact hskip.1 (heq ▸ hi)
  · intro ht
    rw [hpoll]
    exact watchLoop_nonterminal_fetched g c c id s hmem ht
  · intro s' hts'
    have hhas : cacheHas c id = true := cacheHas_of_mem hmem
    have hmem' : (id, s') ∈ cacheSet c id s' := mem_cacheSet_self_of_has s' hhas
    have hne' : (cacheSet c id s').isEmpty = false := by
      cases hcs : cacheSet c id s' with
      | nil => rw [hcs] at hmem'; simp at hmem'
      | cons e rest => rfl
    have hpoll' : (pollWatchedTasks (cacheSet c id s') g n).2.2 =
        (watchLoop g (cacheSet c id s') (cacheSet c id s')).2.2 := by
      simp [pollWatchedTasks, hne', hn]
    rw [hpoll']
    exact watchLoop_nonterminal_fetched g (cacheSet c id s') (cacheSet c id s')
      id s' hmem' hts'

/-- C5 witness: with a cache holding a completed task `a` and an open task
`b`, one poll fetches `b` but not `a`, leaves `a` cached as completed, and
after resetting `a` to a non-terminal status it is fetched again. -/
theorem C5_terminal_witness :
    ("a" ∉ (pollWatchedTasks [("a", "completed"), ("b", "open")]
        (fun _ => none) 1).2.2 ∧
      cacheGet (pollWatchedTasks [("a", "completed"), ("b", "open")]
        (fun _ => none) 1).1 "a" = some "completed") ∧
      "b" ∈ (pollWatchedTasks [("a", "completed"), ("b", "open")]
        (fun _ => none) 1).2.2 ∧
      "a" ∈ (pollWatchedTasks
        (cacheSet [("a", "completed"), ("b", "open")] "a" "bidding")
        (fun _ => none) 1).2.2 :=
  ⟨⟨((C5_terminal_entries_skipped [("a", "completed"), ("b", "open")]
        (fun _ => none) 1 "a" "completed" (by decide) (by decide)
        (by decide)).1 (by decide)).1,
      ((C5_terminal_entries_skipped [("a", "completed"), ("b", "open")]
        (fun _ => none) 1 "a" "completed" (by decide) (by decide)
        (by decide)).1 (by decide)).2.1⟩,
    (C5_terminal_entries_skipped [("a", "completed"), ("b", "open")]
        (fun _ => none) 1 "b" "open" (by decide) (by decide)
        (by decide)).2.1 (by decide),
    (C5_terminal_entries_skipped [("a", "completed"), ("b", "open")]
        (fun _ => none) 1 "a" "completed" (by decide) (by decide)
        (by decide)).2.2 "bidding" (by decide)⟩

/-! ### obsLoop and statusLoop lemmas -/

theorem obsLoop_cons_our (ids wallets : List String) (t : Task)
    (rest : List Task) (c : Cache) (h : isOurTask ids wallets t = true) :
    obsLoop ids wallets (t :: rest) c =
      ((obsLoop ids wallets rest (recordObservation c t.id t.status).2).1,
        if (recordObservation c t.id t.status).1 = ObsResult.CHANGED then
          t :: (obsLoop ids wallets rest (recordObservation c t.id t.status).2).2
        else (obsLoop ids wallets rest (recordObservation c t.id t.status).2).2) := by
  simp [obsLoop, h]

theorem obsLoop_cons_not_our (ids wallets : List String) (t : Task)
    (rest : List Task) (c : Cache) (h : isOurTask ids wallets t = false) :
    obsLoop ids wallets (t :: rest) c = obsLoop ids wallets rest c := by
  simp [obsLoop, h]

theorem obsLoop_preserve (ids wallets : List String) (tasks : List Task)
    (c : Cache) (id σ : String) (hget : cacheGet c id = some σ)
    (hcons : ∀ t ∈ tasks, t.id = id → t.status = σ) :
    cacheGet (obsLoop ids wallets tasks c).1 id = some σ := by
  induction tasks generalizing c with
  | nil => simpa [obsLoop]
  | cons t rest ih =>
    have hrest : ∀ t' ∈ rest, t'.id = id → t'.status = σ :=
      fun t' ht' => hcons t' (List.mem_cons_of_mem _ ht')
    by_cases hour : isOurTask ids wallets t
    · rw [obsLoop_cons_our ids wallets t rest c hour]
      by_cases hid : t.id = id
      · have hst : t.status = σ := hcons t (List.mem_cons_self _ _) hid
        have : recordObservation c t.id t.status = (ObsResult.UNCHANGED, c) := by
          apply recordObservation_unchanged
          rw [hid, hst]
          exact hget
        rw [this]
        exact ih c hget hrest
      · refine ih _ ?_ hrest
        rw [recordObservation_get_ne c t.id t.status id hid]
        exact hget
    · rw [Bool.not_eq_true] at hour
      rw [obsLoop_cons_not_our ids wallets t rest c hour]
      exact ih c hget hrest

theorem obsLoop_get_sets (ids wallets : List String) (tasks : List Task)
    (c : Cache) (hcons : pairwiseConsistent tasks) :
    ∀ t ∈ tasks, isOurTask ids wallets t = true →
      cacheGet (obsLoop ids wallets tasks c).1 t.id = some t.status := by
  induction tasks generalizing c with
  | nil => simp
  | cons t0 rest ih =>
    have hconsr : pairwiseConsistent rest := fun a b ha hb =>
      hcons a b (List.mem_cons_of_mem _ ha) (List.mem_cons_of_mem _ hb)
    intro t htm hour
    rcases List.mem_cons.mp htm with he | he
    · subst he
      by_cases hour0 : isOurTask ids wallets t
      · rw [obsLoop_cons_our ids wallets t rest c hour0]
        refine obsLoop_preserve ids wallets rest _ t.id t.status
          (recordObservation_get_self c t.id t.status) ?_
        intro t' ht' hid
        exact hcons t' t (List.mem_cons_of_mem _ ht') (List.mem_cons_self _ _) hid
      · exact absurd hour hour0
    · by_cases hour0 : isOurTask ids wallets t0
      · rw [obsLoop_cons_our ids wallets t0 rest c hour0]
        exact ih _ hconsr t he hour
      · rw [Bool.not_eq_true] at hour0
        rw [obsLoop_cons_not_our ids wallets t0 rest c hour0]
        exact ih c hconsr t he hour

theorem obsLoop_nochange (ids wallets : List String) (tasks : List Task)
    (c : Cache)
    (h : ∀ t ∈ tasks, isOurTask ids wallets t = true →
      cacheGet c t.id = some t.status) :
    (obsLoop ids wallets tasks c).1 = c ∧ (obsLoop ids wallets tasks c).2 = [] := by
  induction tasks generalizing c with
  | nil => simp [obsLoop]
  | cons t rest ih =>
    have hrest : ∀ t' ∈ rest, isOurTask ids wallets t' = true →
        cacheGet c t'.1 = some t'.status :=
      fun t' ht' => h t' (List.mem_cons_of_mem _ ht')
    by_cases hour : isOurTask ids wallets t
    · have hrec : recordObservation c t.id t.status = (ObsResult.UNCHANGED, c) :=
        recordObservation_unchanged c t.id t.status
          (h t (List.mem_cons_self _ _) hour)
      rw [obsLoop_cons_our ids wallets t rest c hour, hrec]
      simpa using ih c hrest
    · rw [Bool.not_eq_true] at hour
      rw [obsLoop_cons_not_our ids wallets t rest c hour]
      exact ih c hrest

theorem statusLoop_cons_none (ids wallets : List String)
    (f : String → Option (List Task)) (s : String) (rest : List String)
    (c : Cache) (h : f s = none) :
    statusLoop ids wallets f (s :: rest) c =
      ((statusLoop ids wallets f rest c).1,
        (statusLoop ids wallets f rest c).2.1,
        s :: (statusLoop ids wallets f rest c).2.2) := by
  simp [statusLoop, h]

theorem statusLoop_cons_some (ids wallets : List String)
    (f : String → Option (List Task)) (s : String) (rest : List String)
    (c : Cache) (tasks : List Task) (h : f s = some tasks) :
    statusLoop ids wallets f (s :: rest) c =
      ((statusLoop ids wallets f rest (obsLoop ids wallets tasks c).1).1,
        (obsLoop ids wallets tasks c).2 ++
          (statusLoop ids wallets f rest (obsLoop ids wallets tasks c).1).2.1,
        s :: (statusLoop ids wallets f rest (obsLoop ids wallets tasks c).1).2.2) := by
  simp [statusLoop, h]

theorem statusLoop_preserve (ids wallets : List String)
    (f : String → Option (List Task)) (sts : List String) (c : Cache)
    (id σ : String) (hget : cacheGet c id = some σ)
    (hcons : ∀ s ∈ sts, ∀ l, f s = some l → ∀ t ∈ l, t.id = id → t.status = σ) :
    cacheGet (statusLoop ids wallets f sts c).1 id = some σ := by
  induction sts generalizing c with
  | nil => simpa [statusLoop]
  | cons s rest ih =>
    have hconsr : ∀ s' ∈ rest, ∀ l, f s' = some l →
        ∀ t ∈ l, t.id = id → t.status = σ :=
      fun s' hs' => hcons s' (List.mem_cons_of_mem _ hs')
    cases hf : f s with
    | none =>
      rw [statusLoop_cons_none ids wallets f s rest c hf]
      exact ih c hget hconsr
    | some tasks =>
      rw [statusLoop_cons_some ids wallets f s rest c tasks hf]
      refine ih _ ?_ hconsr
      exact obsLoop_preserve ids wallets tasks c id σ hget
        (hcons s (List.mem_cons_self _ _) tasks hf)

theorem statusLoop_get (ids wallets : List String)
    (f : String → Option (List Task)) (sts : List String) (c : Cache)
    (hcons : consistentOn f sts) :
    ∀ s ∈ sts, ∀ l, f s = some l → ∀ t ∈ l, isOurTask ids wallets t = true →
      cacheGet (statusLoop ids wallets f sts c).1 t.id = some t.status := by
  induction sts generalizing c with
  | nil => simp
  | cons s0 rest ih =>
    have hconsr : consistentOn f rest := fun s s' hs hs' =>
      hcons s s' (List.mem_cons_of_mem _ hs) (List.mem_cons_of_mem _ hs')
    intro s hs l hl t htl hour
    cases hf : f s0 with
    | none =>
      rw [statusLoop_cons_none ids wallets f s0 rest c hf]
      rcases List.mem_cons.mp hs with he | he
      · subst he
        rw [hf] at hl
        cases hl
      · exact ih c hconsr s he l hl t htl hour
    | some tasks =>
      rw [statusLoop_cons_some ids wallets f s0 rest c tasks hf]
      rcases List.mem_cons.mp hs with he | he
      · subst he
        rw [hf] at hl
        rw [Option.some_inj] at hl
        subst hl
        refine statusLoop_preserve ids wallets f rest _ t.id t.status ?_ ?_
        · have hpc : pairwiseConsistent tasks := fun a b ha hb =>
            hcons s s (List.mem_cons_self _ _) (List.mem_cons_self _ _)
              tasks tasks hf hf a b ha hb
          exact obsLoop_get_sets ids wallets tasks c hpc t htl hour
        · intro s' hs' l' hl' t' ht' hid
          exact hcons s' s (List.mem_cons_of_mem _ hs') (List.mem_cons_self _ _)
            l' tasks hl' hf t' t ht' htl hid
      · exact ih _ hconsr s he l hl t htl hour

theorem statusLoop_nochange (ids wallets : List String)
    (f : String → Option (List Task)) (sts : List String) (c : Cache)
    (h : ∀ s ∈ sts, ∀ l, f s = some l → ∀ t ∈ l,
      isOurTask ids wallets t = true → cacheGet c t.id = some t.status) :
    (statusLoop ids wallets f sts c).1 = c ∧
      (statusLoop ids wallets f sts c).2.1 = [] := by
  induction sts generalizing c with
  | nil => simp [statusLoop]
  | cons s rest ih =>
    have hrest : ∀ s' ∈ rest, ∀ l, f s' = some l → ∀ t ∈ l,
        isOurTask ids wallets t = true → cacheGet c t.id = some t.status :=
      fun s' hs' => h s' (List.mem_cons_of_mem _ hs')
    cases hf : f s with
    | none =>
      rw [statusLoop_cons_none ids wallets f s rest c hf]
      exact ih c hrest
    | some tasks =>
      have hob := obsLoop_nochange ids wallets tasks c
        (h s (List.mem_cons_self _ _) tasks hf)
      rw [statusLoop_cons_some ids wallets f s rest c tasks hf, hob.1, hob.2]
      simpa using ih c hrest

/-! ### C2 -/

/-- C2: a task observed with a status equal to its currently cached status
contributes nothing to either poller — processing it is a no-op for the
cache and for the update batch; and both pollers are idempotent under
repeated identical snapshots: running a cycle again with the same fetch
results (consistent per task id for the status-scan, since a snapshot shows
one status per task) broadcasts nothing and leaves the cache unchanged. -/
theorem C2_no_duplicate_status_broadcasts :
    (∀ (ids wallets : List String) (t : Task) (rest : List Task) (c : Cache),
        cacheGet c t.id = some t.status →
          obsLoop ids wallets (t :: rest) c = obsLoop ids wallets rest c) ∧
      (∀ (g : String → Option Task) (tid last : String)
          (rest : List (String × String)) (c : Cache) (t : Task),
        g tid = some t → t.status = last →
          (watchLoop g ((tid, last) :: rest) c).1 = (watchLoop g rest c).1 ∧
            (watchLoop g ((tid, last) :: rest) c).2.1 =
              (watchLoop g rest c).2.1) ∧
      (∀ (ids wallets : List String) (f : String → Option (List Task))
          (c : Cache) (n : Nat), consistentOn f allStatuses →
        (pollAllAgentTasks ids wallets
            (pollAllAgentTasks ids wallets c f n).1 f n).2.1 = none ∧
          (pollAllAgentTasks ids wallets
            (pollAllAgentTasks ids wallets c f n).1 f n).1 =
            (pollAllAgentTasks ids wallets c f n).1) ∧
      (∀ (g : String → Option Task) (c : Cache) (n : Nat),
        (cacheKeys c).Nodup →
        (pollWatchedTasks (pollWatchedTasks c g n).1 g n).2.1 = none ∧
          (pollWatchedTasks (pollWatchedTasks c g n).1 g n).1 =
            (pollWatchedTasks c g n).1) := by
  refine ⟨?_, ?_, ?_, ?_⟩
  · intro ids wallets t rest c h
    by_cases hour : isOurTask ids wallets t
    · rw [obsLoop_cons_our ids wallets t rest c hour,
        recordObservation_unchanged c t.id t.status h]
      simp
    · rw [Bool.not_eq_true] at hour
      exact obsLoop_cons_not_our ids wallets t rest c hour
  · intro g tid last rest c t hg hst
    by_cases ht : isTerminal last
    · rw [watchLoop_cons_terminal g (tid, last) rest c ht]
      exact ⟨rfl, rfl⟩
    · rw [Bool.not_eq_true] at ht
      rw [watchLoop_cons_same g (tid, last) rest c t ht hg hst]
      exact ⟨rfl, rfl⟩
  · intro ids wallets f c n hcons
    by_cases hids : ids.isEmpty
    · simp [pollAllAgentTasks, hids]
    · by_cases hn : n = 0
      · simp [pollAllAgentTasks, hids, hn]
      · have run1 : (pollAllAgentTasks ids wallets c f n).1 =
            (statusLoop ids wallets f allStatuses c).1 := by
          simp [pollAllAgentTasks, hids, hn]
        have hnc := statusLoop_nochange ids wallets f allStatuses
          (statusLoop ids wallets f allStatuses c).1
          (fun s hs l hl t htl hour =>
            statusLoop_get ids wallets f allStatuses c hcons s hs l hl t htl hour)
        constructor
        · rw [run1]
          simp [pollAllAgentTasks, hids, hn, hnc.2]
        · rw [run1]
          simp [pollAllAgentTasks, hids, hn, hnc.1]
  · intro g c n hnd
    by_cases hc : c.isEmpty
    · have run1 : pollWatchedTasks c g n = (c, none, []) := by
        simp [pollWatchedTasks, hc]
      rw [run1]
      simp [pollWatchedTasks, hc]
    · by_cases hn : n = 0
      · have run1 : pollWatchedTasks c g n = (c, none, []) := by
          simp [pollWatchedTasks, hc, hn]
        rw [run1]
        simp [pollWatchedTasks, hc, hn]
      · have hcget : ∀ e ∈ c, cacheGet c e.1 = some e.2 := by
          intro e he
          obtain ⟨id, s⟩ := e
          exact cacheGet_of_mem_nodup hnd he
        have run1 : (pollWatchedTasks c g n).1 = (watchLoop g c c).1 := by
          simp [pollWatchedTasks, hc, hn]
        have hkeys : cacheKeys (watchLoop g c c).1 = cacheKeys c :=
          watchLoop_keys g c c (fun e he => cacheHas_of_mem he)
        have hnd1 : (cacheKeys (watchLoop g c c).1).Nodup := by
          rw [hkeys]
          exact hnd
        have hprem : ∀ e ∈ (watchLoop g c c).1, isTerminal e.2 = false →
            ∀ t, g e.1 = some t → t.status = e.2 := by
          intro e he
          obtain ⟨id, s1⟩ := e
          have hs1 : cacheGet (watchLoop g c c).1 id = some s1 :=
            cacheGet_of_mem_nodup hnd1 he
          have hidc : id ∈ cacheKeys c := by
            rw [← hkeys]
            exact List.mem_map.mpr ⟨(id, s1), he, rfl⟩
          rcases exists_mem_of_mem_cacheKeys hidc with ⟨s, hsmem⟩
          have hw : cacheGet (watchLoop g c c).1 id = some (wPost g id s) :=
            watchLoop_get_of_mem g c c hnd hcget id s hsmem
          have hs1w : s1 = wPost g id s := by
            rw [hs1] at hw
            exact Option.some_inj.mp hw
          intro hnt t hgt
          by_cases hts : isTerminal s
          · rw [hs1w, wPost, if_pos hts] at hnt
            rw [hts] at hnt
            cases hnt
          · rw [Bool.not_eq_true] at hts
            cases hg0 : g id with
            | none =>
              rw [hg0] at hgt
              cases hgt
            | some t0 =>
              have ht0 : t = t0 := by
                rw [hg0] at hgt
                exact (Option.some_inj.mp hgt).symm
              rw [hs1w, wPost, if_neg (by simp [hts]), hg0, ht0]
        have hnc := watchLoop_nochange g (watchLoop g c c).1 (watchLoop g c c).1
          hprem
        have hc1 : (watchLoop g c c).1.isEmpty = false := by
          cases hw : (watchLoop g c c).1 with
          | nil =>
            have : cacheKeys c = [] := by
              rw [← hkeys, hw]
              rfl
            have : c = [] := List.map_eq_nil_iff.mp this
            rw [this] at hc
            simp at hc
          | cons a l => rfl
        constructor
        · rw [run1]
          simp [pollWatchedTasks, hc1, hn, hnc.2]
        · rw [run1]
          simp [pollWatchedTasks, hc1, hn, hnc.1]

/-- C2 witness: the four conjuncts at concrete inputs — an already-cached
observation is a no-op in both loops, and a second identical cycle of each
poller broadcasts nothing. -/
theorem C2_witness :
    (obsLoop [] [] [taskW] [("x", "open")] = obsLoop [] [] [] [("x", "open")]) ∧
      ((watchLoop (fun _ => some taskW) [("x", "open")] [("x", "open")]).1 =
          (watchLoop (fun _ => some taskW) [] [("x", "open")]).1) ∧
      ((pollAllAgentTasks ["A"] []
          (pollAllAgentTasks ["A"] [] [] (fun _ => none) 1).1
          (fun _ => none) 1).2.1 = none) ∧
      ((pollWatchedTasks (pollWatchedTasks [("x", "open")]
          (fun _ => none) 1).1 (fun _ => none) 1).2.1 = none) :=
  ⟨C2_no_duplicate_status_broadcasts.1 [] [] taskW [] [("x", "open")] rfl,
    ((C2_no_duplicate_status_broadcasts.2.1 (fun _ => some taskW) "x" "open"
      [] [("x", "open")] taskW rfl rfl).1),
    (C2_no_duplicate_status_broadcasts.2.2.1 ["A"] [] (fun _ => none) [] 1
      (fun _ _ _ _ _ _ hl => nomatch hl)).1,
    (C2_no_duplicate_status_broadcasts.2.2.2 (fun _ => none) [("x", "open")] 1
      (by decide)).1⟩

/-! ### C6 -/

theorem qStep_q1_safety (st : QueryState) (e : QEvent) (q1 : Nat)
    (hp : st.pending ≠ some q1) (he : mentionsQuery q1 e = false) :
    (qStep st e).pending ≠ some q1 ∧
      ∀ ans, (q1, ans) ∈ (qStep st e).responses →
        (q1, ans) ∈ st.responses ∨ ans = ApiAnswer.errTimeout := by
  cases e with
  | query q n =>
    have hq : q ≠ q1 := by
      simp [mentionsQuery] at he
      exact he
    by_cases hn : n = 0
    · subst hn
      refine ⟨by simpa [qStep] using hp, ?_⟩
      intro ans hm
      simp [qStep] at hm
      rcases hm with h | h
      · exact Or.inl h
      · exact absurd h.1.symm hq
    · refine ⟨?_, ?_⟩
      · simp [qStep, hn]
        exact fun h => hq h
      · intro ans hm
        simp [qStep, hn] at hm
        exact Or.inl hm
  | timerFire q =>
    cases hpd : st.pending with
    | none =>
      refine ⟨?_, ?_⟩
      · simp [qStep, hpd]
      · intro ans hm
        simp [qStep, hpd] at hm
        exact Or.inl hm
    | some qp =>
      refine ⟨by simp [qStep, hpd], ?_⟩
      intro ans hm
      simp [qStep, hpd] at hm
      rcases hm with h | h
      · exact Or.inl h
      · exact Or.inr h.2
  | clientMsg d =>
    cases hpd : st.pending with
    | none =>
      refine ⟨?_, ?_⟩
      · simp [qStep, hpd]
      · intro ans hm
        simp [qStep, hpd] at hm
        exact Or.inl hm
    | some qp =>
      have hqp : qp ≠ q1 := by
        intro heq
        exact hp (by rw [hpd, heq])
      refine ⟨by simp [qStep, hpd], ?_⟩
      intro ans hm
      simp [qStep, hpd] at hm
      rcases hm with h | h
      · exact Or.inl h
      · exact absurd h.1.symm hqp

theorem qRun_q1_safety (evs : List QEvent) (st : QueryState) (q1 : Nat)
    (hp : st.pending ≠ some q1)
    (hevs : ∀ e ∈ evs, mentionsQuery q1 e = false) :
    (qRun st evs).pending ≠ some q1 ∧
      ∀ ans, (q1, ans) ∈ (qRun st evs).responses →
        (q1, ans) ∈ st.responses ∨ ans = ApiAnswer.errTimeout := by
  induction evs generalizing st with
  | nil => exact ⟨hp, fun ans hm => Or.inl hm⟩
  | cons e evs ih =>
    have hstep := qStep_q1_safety st e q1 hp (hevs e (List.mem_cons_self _ _))
    have hrun : qRun st (e :: evs) = qRun (qStep st e) evs := rfl
    rw [hrun]
    have hih := ih (qStep st e) hstep.1
      (fun e' he' => hevs e' (List.mem_cons_of_mem _ he'))
    refine ⟨hih.1, ?_⟩
    intro ans hm
    rcases hih.2 ans hm with h | h
    · exact hstep.2 ans h
    · exact Or.inr h

/-- C6: a second `/api/browser-state` query arriving while a first is
pending overwrites the pending resolver with the second query's; from then
on, for any continuation that contains no further query with the first id,
the first caller is never answered by any client's `state_response` — the
only HTTP response it can ever receive is the timeout error produced by an
event of its own 5-second timeout path — and in the spec's scenario (no
client responds before the first timeout fires) that timer does send the
first caller its timeout reply. -/
theorem C6_second_query_overwrites_pending (st : QueryState)
    (q1 q2 n1 n2 : Nat) (evs : List QEvent) (h1 : n1 ≠ 0) (h2 : n2 ≠ 0)
    (hq : q1 ≠ q2) (hevs : ∀ e ∈ evs, mentionsQuery q1 e = false) :
    (qStep st (QEvent.query q1 n1)).pending = some q1 ∧
      (qStep (qStep st (QEvent.query q1 n1)) (QEvent.query q2 n2)).pending =
        some q2 ∧
      (∀ ans, (q1, ans) ∈
          (qRun (qStep (qStep st (QEvent.query q1 n1)) (QEvent.query q2 n2))
            evs).responses →
        (q1, ans) ∈ st.responses ∨ ans = ApiAnswer.errTimeout) ∧
      (qRun (qStep (qStep st (QEvent.query q1 n1)) (QEvent.query q2 n2))
          [QEvent.timerFire q1]).responses =
        st.responses ++ [(q1, ApiAnswer.errTimeout)] := by
  have hst1 : qStep st (QEvent.query q1 n1) =
      { st with pending := some q1, sentRequests := st.sentRequests + 1 } := by
    simp [qStep, h1]
  have hst2 : qStep (qStep st (QEvent.query q1 n1)) (QEvent.query q2 n2) =
      { st with pending := some q2, sentRequests := st.sentRequests + 2 } := by
    rw [hst1]
    simp [qStep, h2]
  refine ⟨by rw [hst1], by rw [hst2], ?_, ?_⟩
  · intro ans hm
    have hsafe := qRun_q1_safety evs
      (qStep (qStep st (QEvent.query q1 n1)) (QEvent.query q2 n2)) q1
      (by rw [hst2]; simp; exact fun h => hq h.symm) hevs
    rcases hsafe.2 ans hm with h | h
    · rw [hst2] at h
      exact Or.inl h
    · exact Or.inr h
  · rw [hst2]
    simp [qRun, qStep]

/-- C6 witness: two back-to-back queries 1 and 2, then a client
`state_response`: query 2 overwrites the pending resolver, query 1 can only
ever receive the timeout error, and with no client response the first
timer answers query 1 with the timeout payload. -/
theorem C6_witness :
    (qStep qInit (QEvent.query 1 1)).pending = some 1 ∧
      (qStep (qStep qInit (QEvent.query 1 1)) (QEvent.query 2 1)).pending =
        some 2 ∧
      (∀ ans, (1, ans) ∈
          (qRun (qStep (qStep qInit (QEvent.query 1 1)) (QEvent.query 2 1))
            [QEvent.clientMsg "d"]).responses →
        (1, ans) ∈ qInit.responses ∨ ans = ApiAnswer.errTimeout) ∧
      (qRun (qStep (qStep qInit (QEvent.query 1 1)) (QEvent.query 2 1))
          [QEvent.timerFire 1]).responses =
        qInit.responses ++ [(1, ApiAnswer.errTimeout)] :=
  C6_second_query_overwrites_pending qInit 1 2 1 1 [QEvent.clientMsg "d"]
    (by decide) (by decide) (by decide)
    (fun e he => by
      rcases List.mem_singleton.mp he with rfl
      rfl)

end X402Relay
